import Mathlib

/-!
Shallow embedding of the crawl/fetch orchestration core of `webscrape_pro`
(rate limiting, retry with backoff, response cache, fetcher, breadth-first
crawler), together with theorems settling the specification's claims.

Python floats are modelled as rationals (`ℚ`); the monotone wall clock
`time.time()` is modelled by passing, at each refill point, the nonnegative
time elapsed since the previous refill.
-/

namespace WebscrapePro

/-! ### `middleware/rate_limiter.py` : `TokenBucket` -/

/-- State of `TokenBucket` (`rate_limiter.py`).  The source field
`last_update` is absorbed by parameterising every refill with the elapsed
wall-clock time since the previous one (nonnegative, since `time.time()` is
monotone). -/
structure TokenBucket where
  rate : ℚ
  capacity : ℚ
  tokens : ℚ
deriving Repr, DecidableEq

/-- Model of `TokenBucket._add_tokens`: add `elapsed * rate` tokens, capped at
`capacity`. -/
def TokenBucket.addTokens (b : TokenBucket) (elapsed : ℚ) : TokenBucket :=
  { b with tokens := min b.capacity (b.tokens + elapsed * b.rate) }

/-- Model of `TokenBucket.acquire(tokens, blocking)`.  `elapsed` is the wall-clock
time since the last refill; when the blocking path sleeps, the sleep lasts
`wait_time = (cost - tokens) / rate` plus a nonnegative overshoot `slack`
(`time.sleep` never wakes early).  Returns the new bucket and the boolean
result. -/
def TokenBucket.acquire (b : TokenBucket) (cost : ℚ) (blocking : Bool)
    (elapsed slack : ℚ) : TokenBucket × Bool :=
  let b1 := b.addTokens elapsed
  if cost ≤ b1.tokens then
    ({ b1 with tokens := b1.tokens - cost }, true)
  else if blocking = false then
    (b1, false)
  else
    let wait := (cost - b1.tokens) / b1.rate
    let b2 := b1.addTokens (wait + slack)
    ({ b2 with tokens := b2.tokens - cost }, true)

/-- One `acquire` call of a sequence: its cost, blocking flag, the time
elapsed since the previous refill, and the sleep overshoot (used only on the
blocking wait path). -/
structure AcqOp where
  cost : ℚ
  blocking : Bool
  elapsed : ℚ
  slack : ℚ

/-- Run a sequence of `acquire` calls against a bucket. -/
def TokenBucket.runOps (b : TokenBucket) : List AcqOp → TokenBucket
  | [] => b
  | op :: ops => ((b.acquire op.cost op.blocking op.elapsed op.slack).1).runOps ops

/-- The spec's `RateBudget` invariant: `0 ≤ tokens ≤ capacity`. -/
def TokenBucket.inv (b : TokenBucket) : Prop :=
  0 ≤ b.tokens ∧ b.tokens ≤ b.capacity

instance (b : TokenBucket) : Decidable b.inv := by
  unfold TokenBucket.inv; infer_instance

/-- Method `acquire` never changes `rate` or `capacity`. -/
theorem TokenBucket.acquire_fields (b : TokenBucket) (cost : ℚ) (blocking : Bool)
    (elapsed slack : ℚ) :
    ((b.acquire cost blocking elapsed slack).1).rate = b.rate ∧
    ((b.acquire cost blocking elapsed slack).1).capacity = b.capacity := by
  unfold TokenBucket.acquire TokenBucket.addTokens
  dsimp only
  split_ifs <;> simp

/-- One `acquire` call preserves the invariant, provided its cost is between
`0` and `capacity`, the elapsed time and the sleep overshoot are
nonnegative, and the refill rate is positive. -/
theorem TokenBucket.inv_acquire (b : TokenBucket) (cost : ℚ) (blocking : Bool)
    (elapsed slack : ℚ) (hr : 0 < b.rate) (hinv : b.inv) (hc0 : 0 ≤ cost)
    (hcc : cost ≤ b.capacity) (he : 0 ≤ elapsed) (hs : 0 ≤ slack) :
    ((b.acquire cost blocking elapsed slack).1).inv := by
  obtain ⟨h0, h1⟩ := hinv
  have hcap : (0:ℚ) ≤ b.capacity := le_trans h0 h1
  have ht1l : (0:ℚ) ≤ min b.capacity (b.tokens + elapsed * b.rate) :=
    le_min hcap (by nlinarith)
  have ht1r : min b.capacity (b.tokens + elapsed * b.rate) ≤ b.capacity :=
    min_le_left _ _
  unfold TokenBucket.acquire TokenBucket.addTokens TokenBucket.inv
  dsimp only
  split_ifs with hle hbl <;> dsimp only
  · exact ⟨by linarith, by linarith⟩
  · exact ⟨ht1l, ht1r⟩
  · set t1 := min b.capacity (b.tokens + elapsed * b.rate) with ht1
    have key : t1 + ((cost - t1) / b.rate + slack) * b.rate = cost + slack * b.rate := by
      field_simp
      try ring
    rw [key]
    have hmin1 : cost ≤ min b.capacity (cost + slack * b.rate) :=
      le_min hcc (by nlinarith [mul_nonneg hs hr.le])
    have hmin2 : min b.capacity (cost + slack * b.rate) ≤ b.capacity :=
      min_le_left _ _
    exact ⟨by linarith, by linarith⟩

/-- Invariant preservation across a whole sequence of `acquire` calls. -/
theorem TokenBucket.inv_runOps (b : TokenBucket) (ops : List AcqOp)
    (hr : 0 < b.rate) (hinv : b.inv)
    (hops : ∀ op ∈ ops,
      0 ≤ op.cost ∧ op.cost ≤ b.capacity ∧ 0 ≤ op.elapsed ∧ 0 ≤ op.slack) :
    (b.runOps ops).inv := by
  induction ops generalizing b with
  | nil => exact hinv
  | cons op ops ih =>
    obtain ⟨hA, hB, hC, hD⟩ := hops op (List.mem_cons_self _ _)
    have hf := TokenBucket.acquire_fields b op.cost op.blocking op.elapsed op.slack
    unfold TokenBucket.runOps
    apply ih
    · rw [hf.1]; exact hr
    · exact TokenBucket.inv_acquire b op.cost op.blocking op.elapsed op.slack hr
        hinv hA hB hC hD
    · intro o ho
      rw [hf.2]
      exact hops o (List.mem_cons_of_mem _ ho)

/-- C1 counterexample: starting from a bucket with `rate = 1`,
`capacity = 1`, `tokens = 1` (which satisfies the invariant), a single
blocking `acquire` of cost `2` leaves `tokens = -1`: the refill after the
sleep is capped at `capacity`, and the unconditional `self.tokens -= tokens`
then drives the count negative.  So the invariant does not hold for
arbitrary costs. -/
theorem tokenBucket_invariant_counterexample :
    (TokenBucket.mk 1 1 1).inv ∧
    (TokenBucket.runOps ⟨1, 1, 1⟩ [⟨2, true, 0, 0⟩]).tokens = -1 ∧
    ¬ (TokenBucket.runOps ⟨1, 1, 1⟩ [⟨2, true, 0, 0⟩]).inv := by
  refine ⟨⟨by norm_num, le_refl _⟩, ?_, ?_⟩ <;>
    norm_num [TokenBucket.runOps, TokenBucket.acquire, TokenBucket.addTokens,
      TokenBucket.inv]

/-- C1 (amended): for every sequence of `acquire` calls whose costs lie in
`[0, capacity]` (arbitrary blocking flags, arbitrary nonnegative elapsed
times and sleep overshoots), the invariant `0 ≤ tokens ≤ capacity` holds
after each operation; moreover a failed (non-blocking) `acquire` changes the
state only by the elapsed-time refill, so tokens decrease only via a
successful acquisition. -/
theorem tokenBucket_invariant_amended (b : TokenBucket) (ops : List AcqOp)
    (hr : 0 < b.rate) (hinv : b.inv)
    (hops : ∀ op ∈ ops,
      0 ≤ op.cost ∧ op.cost ≤ b.capacity ∧ 0 ≤ op.elapsed ∧ 0 ≤ op.slack) :
    (b.runOps ops).inv ∧
    (∀ cost elapsed slack, (b.acquire cost false elapsed slack).2 = false →
      (b.acquire cost false elapsed slack).1 = b.addTokens elapsed) := by
  refine ⟨TokenBucket.inv_runOps b ops hr hinv hops, ?_⟩
  intro cost elapsed slack hfail
  unfold TokenBucket.acquire at hfail ⊢
  dsimp only at hfail ⊢
  split_ifs at hfail ⊢ with h
  rfl

/-- C1 witness: a concrete run (one blocking acquire, then a refused
non-blocking acquire of the full capacity) for which the amended theorem's
hypotheses hold. -/
theorem tokenBucket_invariant_amended_witness :
    (TokenBucket.runOps ⟨1, 2, 2⟩ [⟨1, true, 0, 0⟩, ⟨2, false, 0, 0⟩]).inv ∧
    (∀ cost elapsed slack,
      ((TokenBucket.mk 1 2 2).acquire cost false elapsed slack).2 = false →
      ((TokenBucket.mk 1 2 2).acquire cost false elapsed slack).1 =
        (TokenBucket.mk 1 2 2).addTokens elapsed) :=
  tokenBucket_invariant_amended ⟨1, 2, 2⟩ _ (by norm_num)
    ⟨by norm_num, le_refl _⟩
    (by intro op hop
        rcases List.mem_cons.mp hop with h | h
        · subst h; refine ⟨by norm_num, by norm_num, le_refl _, le_refl _⟩
        · rcases List.mem_cons.mp h with h2 | h2
          · subst h2; refine ⟨by norm_num, le_refl _, le_refl _, le_refl _⟩
          · cases h2)

/-! ### `middleware/rate_limiter.py` : `AdaptiveRateLimiter` -/

/-- Python's `int()` applied to a rational: truncation toward zero. -/
def pyInt (x : ℚ) : ℤ :=
  if 0 ≤ x then ⌊x⌋ else ⌈x⌉

/-- State of `AdaptiveRateLimiter`; the embedded `bucket` is rebuilt by
`report_response` exactly as in the source
(`TokenBucket(self.current_rps, int(self.current_rps * 2))`, a fresh bucket
starting with `tokens = capacity`). -/
structure AdaptiveRateLimiter where
  current_rps : ℚ
  min_rps : ℚ
  max_rps : ℚ
  bucket : TokenBucket
deriving Repr

/-- Model of `AdaptiveRateLimiter.__init__(initial_rps, min_rps, max_rps)`. -/
def AdaptiveRateLimiter.init (initial_rps min_rps max_rps : ℚ) :
    AdaptiveRateLimiter :=
  ⟨initial_rps, min_rps, max_rps,
    ⟨initial_rps, (pyInt (initial_rps * 2) : ℚ), (pyInt (initial_rps * 2) : ℚ)⟩⟩

/-- Model of `AdaptiveRateLimiter.report_response(status_code)`: on 429 halve the
rate (floored at `min_rps`), on any status `< 400` multiply it by `1.1`
(capped at `max_rps`), otherwise leave the state unchanged; in the first two
cases rebuild the bucket. -/
def AdaptiveRateLimiter.report_response (a : AdaptiveRateLimiter)
    (status_code : ℕ) : AdaptiveRateLimiter :=
  if status_code = 429 then
    let r := max a.min_rps (a.current_rps * (1/2))
    { a with current_rps := r,
             bucket := ⟨r, (pyInt (r * 2) : ℚ), (pyInt (r * 2) : ℚ)⟩ }
  else if status_code < 400 then
    let r := min a.max_rps (a.current_rps * (11/10))
    { a with current_rps := r,
             bucket := ⟨r, (pyInt (r * 2) : ℚ), (pyInt (r * 2) : ℚ)⟩ }
  else a

/-- The limiter built with the source's default parameters
(`initial_rps=2.0, min_rps=0.1, max_rps=10.0`) after `n` consecutive
`report_response(200)` calls. -/
def report200s : ℕ → AdaptiveRateLimiter
  | 0 => AdaptiveRateLimiter.init 2 (1/10) 10
  | n + 1 => (report200s n).report_response 200

/-- C6: with the default parameters, ten consecutive `report_response(200)`
calls strictly increase `current_rps` at every step and never push it beyond
`max_rps = 10`; in general a success report keeps `current_rps ≤ max_rps`,
and a single `report_response(429)` sets `current_rps` to exactly
`max min_rps (current_rps / 2)` — an immediate halving floored at
`min_rps`. -/
theorem adaptiveRateLimiter_convergence :
    (∀ n : ℕ, n < 10 →
      (report200s n).current_rps < (report200s (n + 1)).current_rps) ∧
    (∀ n : ℕ, n ≤ 10 → (report200s n).current_rps ≤ 10) ∧
    (∀ (a : AdaptiveRateLimiter) (s : ℕ), 0 ≤ a.min_rps →
      a.min_rps ≤ a.max_rps → a.current_rps ≤ a.max_rps →
      (a.report_response s).current_rps ≤ a.max_rps) ∧
    (∀ a : AdaptiveRateLimiter,
      (a.report_response 429).current_rps =
        max a.min_rps (a.current_rps * (1/2))) := by
  refine ⟨?_, ?_, ?_, ?_⟩
  · intro n hn
    interval_cases n <;>
      norm_num [report200s, AdaptiveRateLimiter.report_response,
        AdaptiveRateLimiter.init, min_def, max_def]
  · intro n hn
    interval_cases n <;>
      norm_num [report200s, AdaptiveRateLimiter.report_response,
        AdaptiveRateLimiter.init, min_def, max_def]
  · intro a s h0 h1 h2
    unfold AdaptiveRateLimiter.report_response
    dsimp only
    split_ifs with h429 h400
    · refine max_le h1 ?_
      rcases le_or_lt 0 a.current_rps with hc | hc
      · nlinarith
      · nlinarith
    · exact min_le_left _ _
    · exact h2
  · intro a
    simp [AdaptiveRateLimiter.report_response]

/-- C6 witness: a concrete instance discharging the hypotheses of the
general conjuncts: the first success step strictly increases the rate, and
the bound conjunct applied at the default initial state with status 200. -/
theorem adaptiveRateLimiter_convergence_witness :
    (report200s 0).current_rps < (report200s 1).current_rps ∧
    ((AdaptiveRateLimiter.init 2 (1/10) 10).report_response 200).current_rps ≤
      (AdaptiveRateLimiter.init 2 (1/10) 10).max_rps :=
  ⟨adaptiveRateLimiter_convergence.1 0 (by norm_num),
   adaptiveRateLimiter_convergence.2.2.1 (AdaptiveRateLimiter.init 2 (1/10) 10)
     200 (by norm_num [AdaptiveRateLimiter.init])
     (by norm_num [AdaptiveRateLimiter.init])
     (by norm_num [AdaptiveRateLimiter.init])⟩

/-! ### `middleware/retry.py` : `RetryManager`

The configured `retry_exceptions` tuple is modelled as a predicate
`retryable` on the error type; exceptions are opaque values of a type `ε`.
The outcome of the `i`-th invocation of the wrapped zero-argument operation
is given by an oracle `op : ℕ → Except ε α`. -/

/-- Configuration of `RetryManager` (`retry.py`). -/
structure RetryManager where
  max_retries : ℕ
  base_delay : ℚ
  max_delay : ℚ
  exponential_base : ℚ
deriving Repr

/-- Model of `random.uniform(a, b)` as a function of a sample `t ∈ [0, 1]`. -/
def uniformSample (a b t : ℚ) : ℚ :=
  a + t * (b - a)

/-- Model of `RetryManager.calculate_delay(attempt)`:
`delay = min(base_delay * exponential_base ** attempt, max_delay)`, plus a
`random.uniform(-jitter, jitter)` draw with `jitter = delay * 0.25`,
parameterised here by the uniform sample `t`. -/
def RetryManager.calculate_delay (m : RetryManager) (attempt : ℕ) (t : ℚ) : ℚ :=
  let delay := min (m.base_delay * m.exponential_base ^ attempt) m.max_delay
  let jitter := delay * (1/4)
  delay + uniformSample (-jitter) jitter t

/-- C7: for every attempt `n ≥ 0` and every admissible uniform sample, the
computed delay lies within `[0.75·d, 1.25·d]` for
`d = min(base_delay * exponential_base^n, max_delay)`, and in particular is
never negative (given nonnegative configuration parameters, as in the
source defaults). -/
theorem retryManager_calculate_delay_bounds (m : RetryManager) (attempt : ℕ)
    (t : ℚ) (hb : 0 ≤ m.base_delay) (he : 0 ≤ m.exponential_base)
    (hm : 0 ≤ m.max_delay) (ht0 : 0 ≤ t) (ht1 : t ≤ 1) :
    (3/4) * min (m.base_delay * m.exponential_base ^ attempt) m.max_delay ≤
      m.calculate_delay attempt t ∧
    m.calculate_delay attempt t ≤
      (5/4) * min (m.base_delay * m.exponential_base ^ attempt) m.max_delay ∧
    0 ≤ m.calculate_delay attempt t := by
  unfold RetryManager.calculate_delay uniformSample
  dsimp only
  have hd : 0 ≤ min (m.base_delay * m.exponential_base ^ attempt) m.max_delay :=
    le_min (mul_nonneg hb (pow_nonneg he _)) hm
  set d := min (m.base_delay * m.exponential_base ^ attempt) m.max_delay with hdd
  have h1 : 0 ≤ t * d := mul_nonneg ht0 hd
  have h2 : t * d ≤ d := mul_le_of_le_one_left hd ht1
  refine ⟨by nlinarith, by nlinarith, by nlinarith⟩

/-- C7 witness: the source's default configuration
(`base_delay=1.0, max_delay=60.0, exponential_base=2.0`), attempt 2, with
the uniform sample at its upper end. -/
theorem retryManager_calculate_delay_bounds_witness :
    (3/4) * min ((1:ℚ) * 2 ^ 2) 60 ≤
      (RetryManager.mk 3 1 60 2).calculate_delay 2 1 ∧
    (RetryManager.mk 3 1 60 2).calculate_delay 2 1 ≤
      (5/4) * min ((1:ℚ) * 2 ^ 2) 60 ∧
    0 ≤ (RetryManager.mk 3 1 60 2).calculate_delay 2 1 :=
  retryManager_calculate_delay_bounds ⟨3, 1, 60, 2⟩ 2 1 (by norm_num)
    (by norm_num) (by norm_num) (by norm_num) (by norm_num)

/-- The loop of `RetryManager.execute`, from a given attempt index.
`remaining = max_retries - attempt` counts the retries left, so the
source's `attempt < max_retries` test is `remaining > 0`.  An exception
outside `retry_exceptions` is not caught and propagates immediately.
Returns the result together with the number of invocations of `func`. -/
def executeGo (retryable : ε → Bool) (op : ℕ → Except ε α) :
    ℕ → ℕ → Except ε α × ℕ
  | attempt, 0 =>
    match op attempt with
    | .ok a => (.ok a, 1)
    | .error e => (.error e, 1)
  | attempt, r + 1 =>
    match op attempt with
    | .ok a => (.ok a, 1)
    | .error e =>
      if retryable e = false then (.error e, 1)
      else
        let res := executeGo retryable op (attempt + 1) r
        (res.1, res.2 + 1)

/-- Model of `RetryManager.execute(func)`: run the attempt loop from attempt `0`
with `max_retries` retries left. -/
def RetryManager.execute (m : RetryManager) (retryable : ε → Bool)
    (op : ℕ → Except ε α) : Except ε α × ℕ :=
  executeGo retryable op 0 m.max_retries

/-- The retry loop inside `AsyncScraper.fetch` (`async_scraper.py`):
`for attempt in range(max_retries)`, catching every exception and
re-raising on the last iteration (`attempt == max_retries - 1`, i.e. one
iteration left); when the range is empty the loop body never runs and the
function returns Python's `None`, modelled as `.ok none`. -/
def asyncFetchGo (op : ℕ → Except ε α) : ℕ → ℕ → Except ε (Option α) × ℕ
  | _attempt, 0 => (.ok none, 0)
  | attempt, 1 =>
    match op attempt with
    | .ok a => (.ok (some a), 1)
    | .error e => (.error e, 1)
  | attempt, r + 2 =>
    match op attempt with
    | .ok a => (.ok (some a), 1)
    | .error _ =>
      let res := asyncFetchGo op (attempt + 1) (r + 1)
      (res.1, res.2 + 1)

/-- The retry loop of `AsyncScraper.fetch` started at attempt `0` with
`config.max_retries` iterations. -/
def AsyncScraper.fetchRetry (max_retries : ℕ) (op : ℕ → Except ε α) :
    Except ε (Option α) × ℕ :=
  asyncFetchGo op 0 max_retries

/-- Behaviour of the `execute` loop: at least one and at most
`remaining + 1` invocations, and an error outcome is exactly the failure of
the last attempt made. -/
theorem executeGo_spec (retryable : ε → Bool) (op : ℕ → Except ε α)
    (remaining : ℕ) : ∀ attempt : ℕ,
    1 ≤ (executeGo retryable op attempt remaining).2 ∧
    (executeGo retryable op attempt remaining).2 ≤ remaining + 1 ∧
    ∀ e, (executeGo retryable op attempt remaining).1 = .error e →
      op (attempt + (executeGo retryable op attempt remaining).2 - 1) =
        .error e := by
  induction remaining with
  | zero =>
    intro attempt
    unfold executeGo
    cases h : op attempt with
    | ok a =>
      dsimp only
      refine ⟨le_refl _, by omega, ?_⟩
      intro e he
      cases he
    | error e' =>
      dsimp only
      refine ⟨le_refl _, by omega, ?_⟩
      intro e he
      cases he
      simpa using h
  | succ r ih =>
    intro attempt
    unfold executeGo
    cases h : op attempt with
    | ok a =>
      dsimp only
      refine ⟨le_refl _, by omega, ?_⟩
      intro e he
      cases he
    | error e' =>
      dsimp only
      split_ifs with hret
      · refine ⟨le_refl _, by omega, ?_⟩
        intro e he
        cases he
        simpa using h
      · obtain ⟨ih1, ih2, ih3⟩ := ih (attempt + 1)
        refine ⟨by omega, by omega, ?_⟩
        intro e he
        have hlast := ih3 e he
        have harith :
            attempt + 1 + (executeGo retryable op (attempt + 1) r).2 - 1 =
            attempt + ((executeGo retryable op (attempt + 1) r).2 + 1) - 1 := by
          omega
        rw [harith] at hlast
        exact hlast

/-- Behaviour of the `AsyncScraper.fetch` retry loop: at most `remaining`
invocations, and an error outcome is exactly the failure of the last
attempt made. -/
theorem asyncFetchGo_spec (op : ℕ → Except ε α) (remaining : ℕ) :
    ∀ attempt : ℕ,
    (asyncFetchGo op attempt remaining).2 ≤ remaining ∧
    ∀ e, (asyncFetchGo op attempt remaining).1 = .error e →
      op (attempt + (asyncFetchGo op attempt remaining).2 - 1) = .error e := by
  induction remaining with
  | zero =>
    intro attempt
    unfold asyncFetchGo
    refine ⟨by omega, ?_⟩
    intro e he
    cases he
  | succ r ih =>
    intro attempt
    match r, ih with
    | 0, _ =>
      unfold asyncFetchGo
      cases h : op attempt with
      | ok a =>
        dsimp only
        refine ⟨by omega, ?_⟩
        intro e he
        cases he
      | error e' =>
        dsimp only
        refine ⟨by omega, ?_⟩
        intro e he
        cases he
        simpa using h
    | r' + 1, ih =>
      unfold asyncFetchGo
      cases h : op attempt with
      | ok a =>
        dsimp only
        refine ⟨by omega, ?_⟩
        intro e he
        cases he
      | error e' =>
        dsimp only
        obtain ⟨ih1, ih2⟩ := ih (attempt + 1)
        refine ⟨by omega, ?_⟩
        intro e he
        have hlast := ih2 e he
        have harith :
            attempt + 1 + (asyncFetchGo op (attempt + 1) (r' + 1)).2 - 1 =
            attempt + ((asyncFetchGo op (attempt + 1) (r' + 1)).2 + 1) - 1 := by
          omega
        rw [harith] at hlast
        exact hlast

/-- When every attempt fails with a retryable error, the `execute` loop
uses all its attempts and raises the failure of the last one. -/
theorem executeGo_all_fail (retryable : ε → Bool) (op : ℕ → Except ε α) :
    ∀ (remaining attempt : ℕ),
    (∀ k, k ≤ remaining → ∃ e, op (attempt + k) = .error e ∧ retryable e = true) →
    ∀ e, op (attempt + remaining) = .error e →
      (executeGo retryable op attempt remaining).1 = .error e ∧
      (executeGo retryable op attempt remaining).2 = remaining + 1 := by
  intro remaining
  induction remaining with
  | zero =>
    intro attempt h e hlast
    rw [Nat.add_zero] at hlast
    unfold executeGo
    rw [hlast]
    exact ⟨rfl, rfl⟩
  | succ r ih =>
    intro attempt h e hlast
    obtain ⟨e0, he0, hret0⟩ := h 0 (Nat.zero_le _)
    rw [Nat.add_zero] at he0
    unfold executeGo
    rw [he0]
    dsimp only
    rw [if_neg (by rw [hret0]; simp)]
    have hshift : ∀ k, k ≤ r → ∃ e, op (attempt + 1 + k) = .error e ∧
        retryable e = true := by
      intro k hk
      have := h (k + 1) (by omega)
      have harith : attempt + (k + 1) = attempt + 1 + k := by omega
      rwa [harith] at this
    have hlast' : op (attempt + 1 + r) = .error e := by
      have harith : attempt + (r + 1) = attempt + 1 + r := by omega
      rwa [harith] at hlast
    obtain ⟨ih1, ih2⟩ := ih (attempt + 1) hshift e hlast'
    exact ⟨ih1, by dsimp only; omega⟩

/-- When every attempt fails, the `AsyncScraper.fetch` loop (with at least
one iteration) raises the failure of its last attempt. -/
theorem asyncFetchGo_all_fail (op : ℕ → Except ε α) :
    ∀ (remaining attempt : ℕ), 1 ≤ remaining →
    (∀ k, k < remaining → ∃ e, op (attempt + k) = .error e) →
    ∀ e, op (attempt + remaining - 1) = .error e →
      (asyncFetchGo op attempt remaining).1 = .error e := by
  intro remaining
  induction remaining with
  | zero =>
    intro attempt h1
    cases h1
  | succ r ih =>
    intro attempt _ h e hlast
    match r, ih with
    | 0, _ =>
      have : attempt + 1 - 1 = attempt := by omega
      rw [this] at hlast
      unfold asyncFetchGo
      rw [hlast]
    | r' + 1, ih =>
      obtain ⟨e0, he0⟩ := h 0 (by omega)
      rw [Nat.add_zero] at he0
      unfold asyncFetchGo
      rw [he0]
      dsimp only
      apply ih (attempt + 1) (by omega)
      · intro k hk
        have := h (k + 1) (by omega)
        have harith : attempt + (k + 1) = attempt + 1 + k := by omega
        rwa [harith] at this
      · have harith : attempt + (r' + 1 + 1) - 1 = attempt + 1 + (r' + 1) - 1 := by
          omega
        rwa [harith] at hlast

/-- C4: both retry executors invoke the wrapped operation at most
`max_retries + 1` times in total, and when the outcome is a failure it is
exactly the failure raised by the final attempt made — the last underlying
error, propagated, not swallowed.  (`RetryManager.execute` makes up to
`max_retries + 1` attempts; the loop inside `AsyncScraper.fetch` makes up
to `max_retries`, which also satisfies the bound.) -/
theorem retry_attempt_bound_and_last_error {ε α : Type}
    (m : RetryManager) (retryable : ε → Bool) (op : ℕ → Except ε α)
    (max_retries : ℕ) (op2 : ℕ → Except ε α) :
    (m.execute retryable op).2 ≤ m.max_retries + 1 ∧
    (∀ e, (m.execute retryable op).1 = .error e →
      op ((m.execute retryable op).2 - 1) = .error e) ∧
    (AsyncScraper.fetchRetry max_retries op2).2 ≤ max_retries + 1 ∧
    (∀ e, (AsyncScraper.fetchRetry max_retries op2).1 = .error e →
      op2 ((AsyncScraper.fetchRetry max_retries op2).2 - 1) = .error e) ∧
    ((∀ k, k ≤ m.max_retries → ∃ e, op k = .error e ∧ retryable e = true) →
      ∀ e, op m.max_retries = .error e →
        (m.execute retryable op).1 = .error e) ∧
    (1 ≤ max_retries →
      (∀ k, k < max_retries → ∃ e, op2 k = .error e) →
      ∀ e, op2 (max_retries - 1) = .error e →
        (AsyncScraper.fetchRetry max_retries op2).1 = .error e) := by
  obtain ⟨h1, h2, h3⟩ := executeGo_spec retryable op m.max_retries 0
  obtain ⟨h4, h5⟩ := asyncFetchGo_spec op2 max_retries 0
  refine ⟨h2, ?_, h4.trans (Nat.le_succ _), ?_, ?_, ?_⟩
  · intro e he
    have hlast := h3 e he
    simpa using hlast
  · intro e he
    have hlast := h5 e he
    simpa using hlast
  · intro hall e hlast
    exact (executeGo_all_fail retryable op m.max_retries 0
      (by intro k hk; simpa using hall k hk) e (by simpa using hlast)).1
  · intro hone hall e hlast
    exact asyncFetchGo_all_fail op2 max_retries 0 hone
      (by intro k hk; simpa using hall k hk) e (by simpa using hlast)

/-- C4 witness: an operation that fails on every attempt (`op i = error i`,
all failures retryable).  With `max_retries = 2` the `RetryManager` makes 3
invocations and surfaces the failure of its final attempt, and the
`AsyncScraper` loop surfaces the failure of its final attempt. -/
theorem retry_attempt_bound_and_last_error_witness :
    ((RetryManager.mk 2 1 60 2).execute (fun _ => true)
        (fun i => (.error i : Except ℕ ℕ))).2 ≤ 2 + 1 ∧
    (Except.error (((RetryManager.mk 2 1 60 2).execute (fun _ => true)
        (fun i => (.error i : Except ℕ ℕ))).2 - 1) : Except ℕ ℕ) =
      .error 2 ∧
    (Except.error ((AsyncScraper.fetchRetry 2
        (fun i => (.error i : Except ℕ ℕ))).2 - 1) : Except ℕ ℕ) =
      .error 1 ∧
    ((RetryManager.mk 2 1 60 2).execute (fun _ => true)
        (fun i => (.error i : Except ℕ ℕ))).1 = .error 2 ∧
    (AsyncScraper.fetchRetry 2 (fun i => (.error i : Except ℕ ℕ))).1 =
      .error 1 := by
  have h := retry_attempt_bound_and_last_error ⟨2, 1, 60, 2⟩ (fun _ => true)
    (fun i => (.error i : Except ℕ ℕ)) 2 (fun i => (.error i : Except ℕ ℕ))
  exact ⟨h.1, h.2.1 2 rfl, h.2.2.2.1 1 rfl,
    h.2.2.2.2.1 (fun k _ => ⟨k, rfl, rfl⟩) 2 rfl,
    h.2.2.2.2.2 (by omega) (fun k _ => ⟨k, rfl⟩) 1 rfl⟩

/-! ### `core/scraper.py` : `SmartScraper.fetch` and the response cache

The `hashlib.md5(url.encode()).hexdigest()` fingerprint is a stable
injective key derivation; it is modelled by the url string itself.  The
cache's `has`/`get`/`set` operations at one instant are association-list
operations (TTL expiry is modelled separately with `CacheManager` below;
`has(k)` is true exactly when `get(k)` is present, so the source's
`has`-then-`get` pair is one lookup here).  The network transport
(`session.get` under `retry_manager.execute`) is an oracle
`transport : Except ε Response` giving the outcome of the retried call. -/

/-- A fetched HTTP response: its url and status code. -/
structure Response where
  url : String
  status_code : ℕ
deriving Repr, DecidableEq

/-- Errors surfaced by `SmartScraper.fetch`: a `ValueError` from
`URLValidator.validate`, a transport failure propagated by
`RetryManager.execute`, or the `HTTPError` raised by
`response.raise_for_status()`. -/
inductive FetchError (ε : Type) where
  | validation
  | transport (e : ε)
  | httpStatus (status : ℕ)
deriving Repr, DecidableEq

/-- The response cache as seen by `fetch` at one instant. -/
abbrev Cache := List (String × Response)

/-- Lookup of a cache entry by key. -/
def Cache.get (c : Cache) (k : String) : Option Response :=
  (c.find? (fun p => p.1 == k)).map Prod.snd

/-- Store a value under a key, replacing any previous entry. -/
def Cache.set (c : Cache) (k : String) (v : Response) : Cache :=
  (k, v) :: c.filter (fun p => p.1 != k)

/-- Model of `SmartScraper.fetch(url)` with `use_cache = True`: validate
the url, consult the cache and return the hit bypassing everything else,
otherwise run the transport under the retry manager, call
`response.raise_for_status()` — which raises exactly for status codes in
`[400, 600)` — and only then store the response in the cache.  The
politeness delay, header and proxy selection do not affect the cache and
are omitted.  Returns the result together with the updated cache. -/
def SmartScraper.fetch {ε : Type} (validUrl : String → Bool)
    (transport : Except ε Response) (cache : Cache) (url : String) :
    Except (FetchError ε) Response × Cache :=
  if validUrl url = false then (.error .validation, cache)
  else
    let cache_key := url
    match cache.get cache_key with
    | some r => (.ok r, cache)
    | none =>
      match transport with
      | .error e => (.error (.transport e), cache)
      | .ok response =>
        if 400 ≤ response.status_code ∧ response.status_code < 600 then
          (.error (.httpStatus response.status_code), cache)
        else
          (.ok response, cache.set cache_key response)

/-- C2 counterexample: a `304 Not Modified` response (non-2xx) passes
`raise_for_status()` — which only raises for `400 ≤ status < 600` — and is
stored into the cache: starting from an empty cache, fetching yields a new
cache entry holding the 304 response. -/
theorem fetch_caches_non2xx_counterexample :
    (SmartScraper.fetch (fun _ => true)
        (.ok ⟨"http://a.example/", 304⟩ : Except Unit Response) [] "http://a.example/").1 =
      .ok ⟨"http://a.example/", 304⟩ ∧
    Cache.get (SmartScraper.fetch (fun _ => true)
        (.ok ⟨"http://a.example/", 304⟩ : Except Unit Response) [] "http://a.example/").2
        "http://a.example/" =
      some ⟨"http://a.example/", 304⟩ ∧
    ¬ (200 ≤ 304 ∧ 304 < 300) :=
  ⟨rfl, rfl, by omega⟩

/-- C2 (amended): `fetch` never stores a response whose status code lies in
the `raise_for_status` range `[400, 600)`; whenever `fetch` surfaces any
error the cache is left exactly unchanged (so a non-2xx status after
exhausting retries is surfaced, not cached); but a response with a non-2xx
status outside that range (e.g. 3xx) is cached. -/
theorem fetch_error_cache_unchanged_amended {ε : Type}
    (validUrl : String → Bool) (transport : Except ε Response)
    (cache : Cache) (url : String) :
    (∀ e, (SmartScraper.fetch validUrl transport cache url).1 = .error e →
      (SmartScraper.fetch validUrl transport cache url).2 = cache) ∧
    (∀ response, validUrl url = true → Cache.get cache url = none →
      transport = .ok response →
      400 ≤ response.status_code → response.status_code < 600 →
      SmartScraper.fetch validUrl transport cache url =
        (.error (.httpStatus response.status_code), cache)) := by
  constructor
  · intro e
    unfold SmartScraper.fetch
    by_cases hv : validUrl url = false
    · rw [if_pos hv]
      intro _
      rfl
    · rw [if_neg hv]
      dsimp only
      cases hg : Cache.get cache url with
      | some r =>
        dsimp only
        intro _
        rfl
      | none =>
        dsimp only
        cases transport with
        | error e' =>
          intro _
          rfl
        | ok response =>
          dsimp only
          by_cases hs : 400 ≤ response.status_code ∧ response.status_code < 600
          · rw [if_pos hs]
            intro _
            rfl
          · rw [if_neg hs]
            intro he
            exact Except.noConfusion he
  · intro response hv hg ht h4 h6
    subst ht
    unfold SmartScraper.fetch
    rw [if_neg (by simp [hv])]
    dsimp only
    rw [hg]
    dsimp only
    rw [if_pos ⟨h4, h6⟩]

/-- C2 witness: a 503 response after exhausted retries is surfaced as an
`httpStatus` error and the (empty) cache is unchanged. -/
theorem fetch_error_cache_unchanged_amended_witness :
    (SmartScraper.fetch (fun _ => true)
        (.ok ⟨"http://a.example/", 503⟩ : Except Unit Response) [] "http://a.example/").2 = [] ∧
    SmartScraper.fetch (fun _ => true)
        (.ok ⟨"http://a.example/", 503⟩ : Except Unit Response) [] "http://a.example/" =
      (.error (.httpStatus 503), []) :=
  ⟨(fetch_error_cache_unchanged_amended (fun _ => true)
      (.ok ⟨"http://a.example/", 503⟩) [] "http://a.example/").1
      (.httpStatus 503) rfl,
   (fetch_error_cache_unchanged_amended (fun _ => true)
      (.ok ⟨"http://a.example/", 503⟩) [] "http://a.example/").2
      ⟨"http://a.example/", 503⟩ rfl rfl rfl (by decide) (by decide)⟩

/-! ### `fetch_many` : `core/scraper.py` and `core/async_scraper.py`

The per-url fetch outcome is an oracle `f : String → Except ε α`. -/

/-- Model of `SmartScraper.fetch_many(urls)`: a sequential loop appending
the response on success and Python's `None` on failure, so the output has
one slot per input url. -/
def SmartScraper.fetch_many {ε α : Type} (f : String → Except ε α) :
    List String → List (Option α)
  | [] => []
  | url :: rest =>
    (match f url with
     | .ok r => some r
     | .error _ => none) :: SmartScraper.fetch_many f rest

/-- The filtering loop of `AsyncScraper.fetch_many`: walk the
`zip(urls, results)` pairs, drop exceptions, keep successes in order. -/
def collectValid {ε α : Type} : List (String × Except ε α) → List α
  | [] => []
  | (_, .ok r) :: rest => r :: collectValid rest
  | (_, .error _) :: rest => collectValid rest

/-- Model of `AsyncScraper.fetch_many(urls)`:
`asyncio.gather(..., return_exceptions=True)` yields one outcome per url in
input order; the filtering loop keeps the non-exception results. -/
def AsyncScraper.fetch_many {ε α : Type} (f : String → Except ε α)
    (urls : List String) : List α :=
  collectValid (urls.zip (urls.map f))

/-- Function `collectValid` keeps exactly the successes, in order. -/
theorem collectValid_eq_filterMap {ε α : Type}
    (l : List (String × Except ε α)) :
    collectValid l = (l.map Prod.snd).filterMap Except.toOption := by
  induction l with
  | nil => rfl
  | cons p rest ih =>
    obtain ⟨u, r⟩ := p
    cases r <;> simp [collectValid, Except.toOption, ih]

/-- Zipping a list with its own image and projecting the image back. -/
theorem zip_map_snd {α β : Type} (f : α → β) (l : List α) :
    (l.zip (l.map f)).map Prod.snd = l.map f := by
  induction l with
  | nil => rfl
  | cons u rest ih => simp [ih]

/-- C8 counterexample: `SmartScraper.fetch_many` does not omit failures —
it appends `None` in their place, so the output always has the same length
as the input and the `len(results) < len(urls)` test can never detect a
failure. -/
theorem smartScraper_fetch_many_counterexample :
    SmartScraper.fetch_many
        (fun u => if u = "u2" then (.error () : Except Unit String) else .ok u)
        ["u1", "u2", "u3"] = [some "u1", none, some "u3"] ∧
    ¬ ((SmartScraper.fetch_many
        (fun u => if u = "u2" then (.error () : Except Unit String) else .ok u)
        ["u1", "u2", "u3"]).length < (["u1", "u2", "u3"] : List String).length) := by
  constructor
  · rfl
  · intro h
    simp [SmartScraper.fetch_many] at h

/-- C8 (amended): `AsyncScraper.fetch_many` returns exactly the subsequence
of successful results in the original input order (failures omitted), and
its output is shorter than the input precisely when some url failed — so
the count mismatch detects failures; `SmartScraper.fetch_many` instead
returns one slot per input url (`none` marking each failure), so its length
always equals the input length.  In the concrete scenario with `u2` always
failing, the async result is the results for `u1` and `u3`, in that
order. -/
theorem fetch_many_partial_amended :
    (∀ (ε α : Type) (f : String → Except ε α) (urls : List String),
      AsyncScraper.fetch_many f urls = (urls.map f).filterMap Except.toOption) ∧
    (∀ (ε α : Type) (f : String → Except ε α) (urls : List String),
      ((AsyncScraper.fetch_many f urls).length < urls.length ↔
        ∃ u ∈ urls, ∃ e, f u = .error e)) ∧
    (∀ (ε α : Type) (f : String → Except ε α) (urls : List String),
      (SmartScraper.fetch_many f urls).length = urls.length) ∧
    AsyncScraper.fetch_many
        (fun u => if u = "u2" then (.error () : Except Unit String) else .ok u)
        ["u1", "u2", "u3"] = ["u1", "u3"] := by
  have key : ∀ (ε α : Type) (f : String → Except ε α) (urls : List String),
      AsyncScraper.fetch_many f urls = (urls.map f).filterMap Except.toOption := by
    intro ε α f urls
    unfold AsyncScraper.fetch_many
    rw [collectValid_eq_filterMap, zip_map_snd]
  refine ⟨key, ?_, ?_, by rfl⟩
  · intro ε α f urls
    rw [key]
    induction urls with
    | nil => simp
    | cons u rest ih =>
      cases h : f u with
      | ok a =>
        simp only [List.map_cons, List.filterMap_cons, h, Except.toOption,
          List.length_cons]
        rw [Nat.succ_lt_succ_iff, ih]
        simp [h]
      | error e =>
        simp only [List.map_cons, List.filterMap_cons, h, Except.toOption,
          List.length_cons]
        have hle := List.length_filterMap_le Except.toOption (rest.map f)
        simp only [List.length_map] at hle
        constructor
        · intro _
          exact ⟨u, by simp, e, h⟩
        · intro _
          omega
  · intro ε α f urls
    induction urls with
    | nil => rfl
    | cons u rest ih => simp [SmartScraper.fetch_many, ih]

/-! ### `middleware/cache.py` : `CacheManager`

The `_make_key` md5 fingerprint is modelled by the key string itself.
`cachetools.TTLCache(maxsize, ttl)` expires an entry `ttl` seconds after
insertion (the `ttl` fixed at construction);
`diskcache.Cache.set(key, value, expire=ttl)` expires it `ttl` seconds
after insertion, or never when `ttl` is `None`.  Instants are rationals
passed explicitly (`now`). -/

/-- Backend tag selected by `CacheManager.__init__`. -/
inductive Backend where
  | memory
  | disk
deriving Repr, DecidableEq

/-- A stored entry: the value and an optional absolute expiry instant. -/
structure CacheEntry (α : Type) where
  value : α
  expires_at : Option ℚ
deriving Repr, DecidableEq

/-- State of `CacheManager`: the backend tag, the construction-time `ttl`
given to `TTLCache` (memory backend), and the stored entries. -/
structure CacheManager (α : Type) where
  backend : Backend
  ttl : ℚ
  entries : List (String × CacheEntry α)

/-- Insert a binding, replacing any previous entry for the key. -/
def insertEntry {α : Type} (entries : List (String × CacheEntry α))
    (k : String) (e : CacheEntry α) : List (String × CacheEntry α) :=
  (k, e) :: entries.filter (fun p => p.1 != k)

/-- Model of `CacheManager.set(key, value, ttl)` performed at instant
`now`: the memory backend stores via `self.cache[cache_key] = value`, whose
expiry comes from the construction-time `ttl` — the per-call `ttl` argument
is unused; the disk backend passes the per-call `ttl` through as
`expire=ttl`. -/
def CacheManager.set {α : Type} (c : CacheManager α) (key : String)
    (value : α) (ttl : Option ℚ) (now : ℚ) : CacheManager α :=
  match c.backend with
  | .memory =>
    { c with entries := insertEntry c.entries key ⟨value, some (now + c.ttl)⟩ }
  | .disk =>
    { c with entries := insertEntry c.entries key ⟨value, ttl.map (fun t => now + t)⟩ }

/-- Model of `CacheManager.get(key)` observed at instant `now`: an entry at
or past its expiry instant is absent. -/
def CacheManager.get {α : Type} (c : CacheManager α) (key : String)
    (now : ℚ) : Option α :=
  match (c.entries.find? (fun p => p.1 == key)).map Prod.snd with
  | none => none
  | some e =>
    match e.expires_at with
    | none => some e.value
    | some t => if now < t then some e.value else none

/-- C10: on the memory backend the per-call `ttl` argument of `set` is
ignored — two `set` calls differing only in that argument produce identical
states, and the stored entry expires exactly `c.ttl` (the construction-time
value) after insertion, as observed through `get`; on the disk backend the
per-call `ttl` is honoured. -/
theorem cacheManager_memory_ignores_per_call_ttl {α : Type}
    (c : CacheManager α) (key : String) (value : α) (ttl₁ ttl₂ : Option ℚ)
    (now : ℚ) :
    (c.backend = .memory →
      c.set key value ttl₁ now = c.set key value ttl₂ now ∧
      (∀ t : ℚ, (c.set key value ttl₁ now).get key t =
        if t < now + c.ttl then some value else none)) ∧
    (c.backend = .disk →
      (c.set key value ttl₁ now).entries.head? =
        some (key, ⟨value, ttl₁.map (fun t => now + t)⟩)) := by
  constructor
  · intro hb
    unfold CacheManager.set
    rw [hb]
    refine ⟨rfl, ?_⟩
    intro t
    unfold CacheManager.get insertEntry
    simp
  · intro hb
    unfold CacheManager.set
    rw [hb]
    rfl

/-- C10 witness: a concrete memory-backend manager (construction
`ttl = 3600`) and a concrete disk-backend manager, with two distinct
per-call ttl values. -/
theorem cacheManager_memory_ignores_per_call_ttl_witness :
    ((CacheManager.mk Backend.memory 3600 [] : CacheManager ℕ).set "k" 7
        (some 5) 100 =
      (CacheManager.mk Backend.memory 3600 []).set "k" 7 (some 9) 100 ∧
      (∀ t : ℚ, ((CacheManager.mk Backend.memory 3600 [] :
          CacheManager ℕ).set "k" 7 (some 5) 100).get "k" t =
        if t < 100 + (3600:ℚ) then some 7 else none)) ∧
    ((CacheManager.mk Backend.disk 3600 [] : CacheManager ℕ).set "k" 7
        (some 5) 100).entries.head? =
      some ("k", ⟨7, some (100 + 5)⟩) := by
  constructor
  · exact (cacheManager_memory_ignores_per_call_ttl
      (CacheManager.mk Backend.memory 3600 []) "k" 7 (some 5) (some 9) 100).1 rfl
  · exact (cacheManager_memory_ignores_per_call_ttl
      (CacheManager.mk Backend.disk 3600 []) "k" 7 (some 5) (some 9) 100).2 rfl

/-! ### `core/scraper.py` : `SmartScraper.crawl`

The call `self.scrape(url)` (fetch + BeautifulSoup parse) is modelled by an
oracle `web : String → Option (List String)`: `none` when fetch or parse
raises, otherwise the list of the page's outbound links, already resolved
to absolute urls (`urljoin(url, href)`).  A parsed page (soup) is
identified by its url, so `results` records page urls in append order.
`urlparse(u).netloc` is the oracle `netloc`.  The ghost field `fetched`
records every url passed to `scrape`, in order.  The `while` loop is given
explicit fuel; a terminal state (empty frontier or page budget reached) is
a fixed point, so any sufficiently large fuel yields the loop's result. -/

/-- Crawl parameters fixed for one `crawl` invocation. -/
structure CrawlEnv where
  web : String → Option (List String)
  base_domain : String
  netloc : String → String
  same_domain : Bool
  link_filter : Option (String → Bool)
  max_pages : ℕ

/-- Mutable state of the crawl loop (plus the ghost `fetched` log). -/
structure CrawlState where
  visited : List String
  to_visit : List String
  results : List String
  fetched : List String
deriving Repr, DecidableEq

/-- The test `if link_filter and not link_filter(full_url)`. -/
def linkFilterRejects (lf : Option (String → Bool)) (link : String) : Bool :=
  match lf with
  | some f => !(f link)
  | none => false

/-- The link loop of `crawl`: for each extracted link, skip it when the
domain restriction applies, when the filter rejects it, or when it is
already visited (`if full_url not in visited`) — the pending queue is not
consulted; otherwise append it to `to_visit`. -/
def enqueueLinks (env : CrawlEnv) (visited : List String) :
    List String → List String → List String
  | to_visit, [] => to_visit
  | to_visit, link :: rest =>
    if env.same_domain ∧ env.netloc link ≠ env.base_domain then
      enqueueLinks env visited to_visit rest
    else if linkFilterRejects env.link_filter link then
      enqueueLinks env visited to_visit rest
    else if link ∈ visited then
      enqueueLinks env visited to_visit rest
    else
      enqueueLinks env visited (to_visit ++ [link]) rest

/-- One-iteration-per-fuel-unit model of the crawl's `while` loop:
`while to_visit and len(visited) < max_pages`, pop the head, skip if
visited, `scrape` it; on error log and continue; on success mark visited,
append to results, and enqueue the page's links. -/
def crawlLoop (env : CrawlEnv) : ℕ → CrawlState → CrawlState
  | 0, s => s
  | fuel + 1, s =>
    match s.to_visit with
    | [] => s
    | url :: rest =>
      if env.max_pages ≤ s.visited.length then s
      else if url ∈ s.visited then
        crawlLoop env fuel { s with to_visit := rest }
      else
        match env.web url with
        | none =>
          crawlLoop env fuel
            { s with to_visit := rest, fetched := s.fetched ++ [url] }
        | some links =>
          crawlLoop env fuel
            { visited := url :: s.visited,
              to_visit := enqueueLinks env (url :: s.visited) rest links,
              results := s.results ++ [url],
              fetched := s.fetched ++ [url] }

/-- Model of `SmartScraper.crawl(start_url, max_pages, same_domain,
link_filter)`: `visited = set()`, `to_visit = [start_url]`,
`base_domain = urlparse(start_url).netloc`, then the loop. -/
def SmartScraper.crawl (web : String → Option (List String))
    (netloc : String → String) (start_url : String) (max_pages : ℕ)
    (same_domain : Bool) (link_filter : Option (String → Bool))
    (fuel : ℕ) : CrawlState :=
  crawlLoop
    { web := web, base_domain := netloc start_url, netloc := netloc,
      same_domain := same_domain, link_filter := link_filter,
      max_pages := max_pages }
    fuel
    { visited := [], to_visit := [start_url], results := [], fetched := [] }

/-- All urls live on one host in the literal scenarios. -/
def constNetloc : String → String :=
  fun _ => "a.example"

/-- The BFS literal scenario: the start page links to B and C, B links to
D, C and D have no links. -/
def webBFS : String → Option (List String) :=
  fun u =>
    if u = "s" then some ["b", "c"]
    else if u = "b" then some ["d"]
    else if u = "c" then some []
    else if u = "d" then some []
    else none

/-- A start page that links twice to the same url. -/
def webSelfLink : String → Option (List String) :=
  fun u =>
    if u = "s" then some ["b", "b"]
    else if u = "b" then some []
    else none

/-- A start page linking twice to a url whose fetch always fails. -/
def webError : String → Option (List String) :=
  fun u =>
    if u = "s" then some ["e", "e"]
    else none

/-- The environment of the always-failing-link scenario. -/
def envError : CrawlEnv :=
  { web := webError, base_domain := "a.example", netloc := constNetloc,
    same_domain := true, link_filter := none, max_pages := 10 }

/-- C5: in the literal scenario (start links to B and C, B links to D,
`max_pages = 3`) the crawl result sequence is exactly [start, B, C] in
discovery (FIFO) order, and D is never fetched — for every sufficient
fuel (four loop iterations reach the terminal state). -/
theorem crawl_bfs_order (fuel : ℕ) :
    (SmartScraper.crawl webBFS constNetloc "s" 3 true none (fuel + 4)).results =
      ["s", "b", "c"] ∧
    "d" ∉ (SmartScraper.crawl webBFS constNetloc "s" 3 true none (fuel + 4)).fetched := by
  have h : SmartScraper.crawl webBFS constNetloc "s" 3 true none (fuel + 4) =
      ⟨["c", "b", "s"], ["d"], ["s", "b", "c"], ["s", "b", "c"]⟩ := by
    unfold SmartScraper.crawl
    simp [crawlLoop, enqueueLinks, webBFS, constNetloc, linkFilterRejects]
  rw [h]
  exact ⟨rfl, by decide⟩

/-- C3 counterexample: when the start page links twice to the same new url
B, the enqueue-time check (`full_url not in visited`) consults only the
visited set, not the pending queue, so B enters the frontier twice: after
one loop iteration the queue is `[B, B]` — a url enqueued more than
once. -/
theorem crawl_enqueue_dedup_counterexample :
    (SmartScraper.crawl webSelfLink constNetloc "s" 10 true none 1).to_visit =
      ["b", "b"] ∧
    ¬ (SmartScraper.crawl webSelfLink constNetloc "s" 10 true none 1).to_visit.Nodup := by
  decide

/-- Invariants of the crawl loop: the visited set only grows (the initial
visited list is a suffix of the final one), and — given that every result
is visited and the results are duplicate-free — both properties persist, so
every url is appended to `results` (successfully processed) at most
once. -/
theorem crawlLoop_invariants (env : CrawlEnv) :
    ∀ (fuel : ℕ) (s : CrawlState),
      s.visited <:+ (crawlLoop env fuel s).visited ∧
      ((∀ u ∈ s.results, u ∈ s.visited) → s.results.Nodup →
        ((crawlLoop env fuel s).results.Nodup ∧
         ∀ u ∈ (crawlLoop env fuel s).results,
           u ∈ (crawlLoop env fuel s).visited)) := by
  intro fuel
  induction fuel with
  | zero =>
    intro s
    exact ⟨List.suffix_refl _, fun h1 h2 => ⟨h2, h1⟩⟩
  | succ n ih =>
    intro s
    rcases hq : s.to_visit with _ | ⟨url, rest⟩
    · have heq : crawlLoop env (n + 1) s = s := by
        unfold crawlLoop
        rw [hq]
      rw [heq]
      exact ⟨List.suffix_refl _, fun h1 h2 => ⟨h2, h1⟩⟩
    · by_cases hmax : env.max_pages ≤ s.visited.length
      · have heq : crawlLoop env (n + 1) s = s := by
          unfold crawlLoop
          rw [hq]
          dsimp only
          rw [if_pos hmax]
        rw [heq]
        exact ⟨List.suffix_refl _, fun h1 h2 => ⟨h2, h1⟩⟩
      · by_cases hv : url ∈ s.visited
        · have heq : crawlLoop env (n + 1) s =
              crawlLoop env n { s with to_visit := rest } := by
            conv_lhs => rw [crawlLoop]
            rw [hq]
            dsimp only
            rw [if_neg hmax, if_pos hv]
          rw [heq]
          exact ih { s with to_visit := rest }
        · rcases hw : env.web url with _ | links
          · have heq : crawlLoop env (n + 1) s = crawlLoop env n
                { s with to_visit := rest, fetched := s.fetched ++ [url] } := by
              conv_lhs => rw [crawlLoop]
              rw [hq]
              dsimp only
              rw [if_neg hmax, if_neg hv, hw]
            rw [heq]
            exact ih
              { s with to_visit := rest, fetched := s.fetched ++ [url] }
          · have heq : crawlLoop env (n + 1) s = crawlLoop env n
                { visited := url :: s.visited,
                  to_visit := enqueueLinks env (url :: s.visited) rest links,
                  results := s.results ++ [url],
                  fetched := s.fetched ++ [url] } := by
              conv_lhs => rw [crawlLoop]
              rw [hq]
              dsimp only
              rw [if_neg hmax, if_neg hv, hw]
            rw [heq]
            obtain ⟨ihs, ihn⟩ := ih
              { visited := url :: s.visited,
                to_visit := enqueueLinks env (url :: s.visited) rest links,
                results := s.results ++ [url],
                fetched := s.fetched ++ [url] }
            constructor
            · exact (List.suffix_cons url s.visited).trans ihs
            · intro h1 h2
              apply ihn
              · intro u hu
                rcases List.mem_append.mp hu with hu | hu
                · exact List.mem_cons_of_mem _ (h1 u hu)
                · rw [List.mem_singleton.mp hu]
                  exact List.mem_cons_self _ _
              · have hnores : url ∉ s.results := fun hc => hv (h1 url hc)
                exact List.nodup_append.mpr
                  ⟨h2, List.nodup_singleton _,
                   fun x hx hx' => hnores ((List.mem_singleton.mp hx') ▸ hx)⟩

/-- C3 (amended): the enqueue-time check consults the visited set only, so
a url can be pending in the frontier more than once; nevertheless the
pop-time `if url in visited: continue` check ensures every url is
successfully processed (appended to the crawl results) at most once, and
the visited set only grows for the lifetime of one crawl. -/
theorem crawl_dedup_amended :
    (∀ (env : CrawlEnv) (fuel : ℕ) (s : CrawlState),
      s.visited <:+ (crawlLoop env fuel s).visited) ∧
    (∀ (web : String → Option (List String)) (netloc : String → String)
       (start_url : String) (max_pages : ℕ) (same_domain : Bool)
       (link_filter : Option (String → Bool)) (fuel : ℕ),
      (SmartScraper.crawl web netloc start_url max_pages same_domain
        link_filter fuel).results.Nodup) := by
  constructor
  · intro env fuel s
    exact (crawlLoop_invariants env fuel s).1
  · intro web netloc start_url max_pages same_domain link_filter fuel
    unfold SmartScraper.crawl
    exact ((crawlLoop_invariants _ fuel _).2 (by intro u hu; cases hu)
      List.nodup_nil).1

/-- C9 counterexample: the failing url E is linked twice from the start
page; its first fetch raises, the crawl continues, but E is not added to
the visited set, so the second pending copy of E is fetched again: the
scrape log is [s, e, e] while E never enters visited. -/
theorem crawl_error_visited_counterexample :
    (SmartScraper.crawl webError constNetloc "s" 10 true none 3).fetched =
      ["s", "e", "e"] ∧
    "e" ∉ (SmartScraper.crawl webError constNetloc "s" 10 true none 3).visited := by
  decide

/-- C9 (amended): when `scrape(url)` raises for the unvisited head url of
the frontier, the crawl logs and continues with the rest of the queue (the
error is non-fatal and does not abort the crawl), leaving `visited` and
`results` unchanged — in particular the failed url is not added to the
visited set, so it may be fetched again if it is pending again later in the
same crawl. -/
theorem crawl_error_nonfatal_amended (env : CrawlEnv) (fuel : ℕ)
    (s : CrawlState) (url : String) (rest : List String)
    (hq : s.to_visit = url :: rest) (hmax : s.visited.length < env.max_pages)
    (hv : url ∉ s.visited) (herr : env.web url = none) :
    crawlLoop env (fuel + 1) s =
      crawlLoop env fuel
        { s with to_visit := rest, fetched := s.fetched ++ [url] } := by
  conv_lhs => rw [crawlLoop]
  rw [hq]
  dsimp only
  rw [if_neg (Nat.not_le.mpr hmax), if_neg hv, herr]

/-- C9 witness: the first error step of the always-failing-link scenario —
one iteration pops E, logs the failed fetch, and continues with an
unchanged visited set. -/
theorem crawl_error_nonfatal_amended_witness :
    crawlLoop envError 1 ⟨["s"], ["e"], ["s"], ["s"]⟩ =
      ⟨["s"], [], ["s"], ["s", "e"]⟩ := by
  rw [crawl_error_nonfatal_amended envError 0 ⟨["s"], ["e"], ["s"], ["s"]⟩
    "e" [] rfl (by decide) (by decide) rfl]
  rfl

end WebscrapePro
